import Mathlib

/-!
Verification of the clap-mcp dispatch engine against its specification.

This file gives a shallow embedding of the core of `clap-mcp/src/lib.rs`:
the schema data model (`ClapArg`, `ClapCommand`, `ClapSchema`), the schema
metadata filter (`command_to_schema_with_metadata`), the tool catalog
builder (`tools_from_schema_with_config_and_metadata`), argument
validation (`validate_required_args`), argv marshaling (`build_tool_argv`),
the call dispatcher (`handle_call_tool_request`), the subprocess exit
handling (`subprocess_result`), the in-process fault boundary
(`format_panic_payload` and the catch branch of the dispatcher), and the
async runtime selector (`run_async_tool`).

JSON values are modelled with integer-valued numbers (`serde_json` numbers
also admit floats, which are out of scope of a shallow embedding); maps
are modelled as association lists, looked up on the first matching key.
Theorems settle the frozen claims about this code.
-/

namespace ClapMcp

/-! ## JSON model (serde_json::Value, numbers restricted to integers) -/

inductive Json where
  | null
  | bool (b : Bool)
  | num (n : Int)
  | str (s : String)
  | arr (elems : List Json)
  | obj (fields : List (String × Json))
  deriving Repr

/-- Escape a string for JSON text (quote and backslash; the control-char
escapes of serde are not needed by any claim). -/
def jsonEscape (s : String) : String :=
  s.data.foldl (fun acc c =>
    if c = '"' then acc ++ "\\\""
    else if c = '\\' then acc ++ "\\\\"
    else acc.push c) ""

mutual

/-- JSON text of a value, as `serde_json::Value::to_string` renders it. -/
def jsonRender : Json → String
  | .null => "null"
  | .bool b => if b then "true" else "false"
  | .num n => toString n
  | .str s => "\"" ++ jsonEscape s ++ "\""
  | .arr elems => "[" ++ String.intercalate "," (jsonRenderList elems) ++ "]"
  | .obj fields => "\x7b" ++ String.intercalate "," (jsonRenderFields fields) ++ "\x7d"

def jsonRenderList : List Json → List String
  | [] => []
  | v :: vs => jsonRender v :: jsonRenderList vs

def jsonRenderFields : List (String × Json) → List String
  | [] => []
  | (k, v) :: fs => ("\"" ++ jsonEscape k ++ "\":" ++ jsonRender v) :: jsonRenderFields fs

end

/-- `value_to_string` from the source: `None` for null, strings pass
through, numbers and booleans use their canonical text, any other JSON
shape falls back to its JSON text. -/
def value_to_string : Json → Option String
  | .null => none
  | .str s => some s
  | .num n => some (toString n)
  | .bool b => some (if b then "true" else "false")
  | .arr elems => some (jsonRender (.arr elems))
  | .obj fields => some (jsonRender (.obj fields))

/-! ## Schema data model (`ClapArg`, `ClapCommand`, `ClapSchema`) -/

/-- The `--mcp` server-mode flag name (`MCP_FLAG_LONG`). -/
def MCP_FLAG_LONG : String := "mcp"

/-- Serializable representation of a clap argument (struct `ClapArg`).
The same fields model a `clap::Arg` input of the extractor:
`arg_to_schema` reads exactly these fields. -/
structure ClapArg where
  id : String
  long : Option String
  short : Option Char
  help : Option String
  long_help : Option String
  required : Bool
  global : Bool
  index : Option Nat
  action : Option String
  value_names : List String
  num_args : Option String
  deriving Repr, DecidableEq

/-- A command or subcommand in the schema (struct `ClapCommand`); also
models the `clap::Command` input of the extractor, which carries the
same fields. -/
inductive ClapCommand where
  | mk (name : String) (about : Option String) (long_about : Option String)
       (version : Option String) (args : List ClapArg)
       (subcommands : List ClapCommand)
  deriving Repr

def ClapCommand.name : ClapCommand → String
  | .mk n _ _ _ _ _ => n

def ClapCommand.about : ClapCommand → Option String
  | .mk _ a _ _ _ _ => a

def ClapCommand.long_about : ClapCommand → Option String
  | .mk _ _ la _ _ _ => la

def ClapCommand.version : ClapCommand → Option String
  | .mk _ _ _ v _ _ => v

def ClapCommand.args : ClapCommand → List ClapArg
  | .mk _ _ _ _ a _ => a

def ClapCommand.subcommands : ClapCommand → List ClapCommand
  | .mk _ _ _ _ _ s => s

mutual

/-- `ClapCommand::all_commands`: this command and all subcommands in
depth-first (pre-order) order. -/
def ClapCommand.all_commands : ClapCommand → List ClapCommand
  | .mk n a la v args subs => .mk n a la v args subs :: all_commands_list subs

/-- The concatenation of `all_commands` over a list of subcommands. -/
def all_commands_list : List ClapCommand → List ClapCommand
  | [] => []
  | c :: cs => c.all_commands ++ all_commands_list cs

end

/-- Serializable schema extracted from a clap command (struct `ClapSchema`). -/
structure ClapSchema where
  root : ClapCommand

/-- `is_builtin_arg`: arg ids omitted from MCP tool arguments. -/
def is_builtin_arg (id : String) : Bool :=
  id == "help" || id == "version" || id == MCP_FLAG_LONG

/-! ## Schema metadata and execution configuration -/

/-- `ClapMcpSchemaMetadata`; the per-command maps are association lists. -/
structure ClapMcpSchemaMetadata where
  skip_commands : List String := []
  skip_args : List (String × List String) := []
  requires_args : List (String × List String) := []
  skip_root_command_when_subcommands : Bool := false
  output_schema : Option Json := none

/-- `HashMap::get(..).unwrap_or_default()` on a per-command id map. -/
def lookupIds (m : List (String × List String)) (key : String) : List String :=
  (m.lookup key).getD []

/-- `ClapMcpConfig`: the execution safety booleans. -/
structure ClapMcpConfig where
  reinvocation_safe : Bool := false
  parallel_safe : Bool := false
  share_runtime : Bool := false
  catch_in_process_panics : Bool := false
  allow_mcp_without_subcommand : Bool := false

/-! ## Stable sorting of args (Rust `sort_by` / `sort_by_key` are stable) -/

/-- Comparator of `args.sort_by(|a, b| a.id.cmp(&b.id))`. -/
def argIdLe (a b : ClapArg) : Prop := a.id ≤ b.id

instance : DecidableRel argIdLe := fun a b => inferInstanceAs (Decidable (a.id ≤ b.id))

instance : IsTotal ClapArg argIdLe := ⟨fun a b => le_total a.id b.id⟩

instance : IsTrans ClapArg argIdLe := ⟨fun _ _ _ h1 h2 => le_trans h1 h2⟩

/-- Stable sort by arg id, modelling `args.sort_by(|a, b| a.id.cmp(&b.id))`. -/
def sortArgsById (args : List ClapArg) : List ClapArg :=
  args.insertionSort argIdLe

/-- Comparator of `positionals.sort_by_key(|a| a.index.unwrap_or(0))`. -/
def argIndexLe (a b : ClapArg) : Prop := a.index.getD 0 ≤ b.index.getD 0

instance : DecidableRel argIndexLe :=
  fun a b => inferInstanceAs (Decidable (a.index.getD 0 ≤ b.index.getD 0))

instance : IsTotal ClapArg argIndexLe := ⟨fun a b => Nat.le_total (a.index.getD 0) (b.index.getD 0)⟩

instance : IsTrans ClapArg argIndexLe := ⟨fun _ _ _ h1 h2 => Nat.le_trans h1 h2⟩

/-- Stable sort by declared positional index, modelling
`positionals.sort_by_key(|a| a.index.unwrap_or(0))`. -/
def sortArgsByIndex (args : List ClapArg) : List ClapArg :=
  args.insertionSort argIndexLe

/-! ## Schema extractor with metadata filter
(`command_to_schema_with_metadata`) -/

/-- The arg-processing pipeline of `command_to_schema_with_metadata`
(lines 945-970 of the source): drop args whose long flag is the
server-mode flag, drop the metadata-skipped args of this command, force
`required := true` on the metadata-required ids, sort by id. -/
def processArgs (metadata : ClapMcpSchemaMetadata) (cmd_name : String)
    (args : List ClapArg) : List ClapArg :=
  let args1 := args.filter (fun a => a.long != some MCP_FLAG_LONG)
  let skip_args := lookupIds metadata.skip_args cmd_name
  let requires_args := lookupIds metadata.requires_args cmd_name
  let args2 := args1.filter (fun a => !skip_args.contains a.id)
  let args3 := args2.map (fun a =>
    if requires_args.contains a.id then { a with required := true } else a)
  sortArgsById args3

mutual

/-- `command_to_schema_with_metadata`: processes the args of the command with
`processArgs` and recurses into the subcommands that are not
metadata-skipped. `arg_to_schema` is the identity on this model, which
carries exactly the fields it reads. -/
def command_to_schema_with_metadata (metadata : ClapMcpSchemaMetadata)
    (skip_commands : List String) : ClapCommand → ClapCommand
  | .mk name about long_about version args subs =>
    .mk name about long_about version (processArgs metadata name args)
      (subcommands_to_schema metadata skip_commands subs)

/-- The subcommand recursion of `command_to_schema_with_metadata`: the
source filters out the skip-listed subcommands and maps the recursion over
the rest; this list recursion produces the same list. -/
def subcommands_to_schema (metadata : ClapMcpSchemaMetadata)
    (skip_commands : List String) : List ClapCommand → List ClapCommand
  | [] => []
  | c :: cs =>
    (if skip_commands.contains c.name then []
     else [command_to_schema_with_metadata metadata skip_commands c])
    ++ subcommands_to_schema metadata skip_commands cs

end

/-- `schema_from_command_with_metadata`. -/
def schema_from_command_with_metadata (cmd : ClapCommand)
    (metadata : ClapMcpSchemaMetadata) : ClapSchema :=
  ⟨command_to_schema_with_metadata metadata metadata.skip_commands cmd⟩

/-! ## `command_with_mcp_flag` -/

/-- The `--mcp` argument appended by `command_with_mcp_flag`:
`Arg::new("mcp").long("mcp").help(..).action(SetTrue).global(true)`. -/
def mcpArg : ClapArg :=
  { id := MCP_FLAG_LONG
    long := some MCP_FLAG_LONG
    short := none
    help := some "Run an MCP server over stdio that exposes this CLI\x27s clap schema"
    long_help := none
    required := false
    global := true
    index := none
    action := some "SetTrue"
    value_names := []
    num_args := none }

/-- `command_with_mcp_flag`: adds a root-level `--mcp` flag; a no-op when
an arg with long flag `mcp` already exists. -/
def command_with_mcp_flag (cmd : ClapCommand) : ClapCommand :=
  match cmd with
  | .mk name about long_about version args subs =>
    let already := args.any (fun a => a.long == some MCP_FLAG_LONG)
    if already then .mk name about long_about version args subs
    else .mk name about long_about version (args ++ [mcpArg]) subs

/-! ## Tool catalog builder -/

/-- A protocol tool descriptor (the fields of `Tool` this core produces).
`properties` maps each arg id to its description (`long_help` falling back
to `help`); every property is string-typed in the source, so the type
field is left implicit. The three safety booleans model `meta.clapMcp`. -/
structure Tool where
  name : String
  title : Option String
  description : Option String
  required : List String
  properties : List (String × Option String)
  reinvocationSafe : Bool
  parallelSafe : Bool
  shareRuntime : Bool
  output_schema : Option Json

/-- `command_to_tool_with_config`. -/
def command_to_tool_with_config (cmd : ClapCommand) (config : ClapMcpConfig)
    (output_schema : Option Json) : Tool :=
  let args := cmd.args.filter (fun a => !is_builtin_arg a.id)
  { name := cmd.name
    title := cmd.about
    description := cmd.long_about.or cmd.about
    required := (args.filter (fun a => a.required)).map (fun a => a.id)
    properties := args.map (fun a => (a.id, a.long_help.or a.help))
    reinvocationSafe := config.reinvocation_safe
    parallelSafe := config.parallel_safe
    shareRuntime := config.share_runtime
    output_schema := output_schema }

/-- `tools_from_schema_with_config_and_metadata`: one tool per retained
command, in `all_commands` order; when the metadata requests it and the
root has subcommands, only the subcommand subtrees are emitted. -/
def tools_from_schema_with_config_and_metadata (schema : ClapSchema)
    (config : ClapMcpConfig) (metadata : ClapMcpSchemaMetadata) : List Tool :=
  let commands :=
    if metadata.skip_root_command_when_subcommands
        && !schema.root.subcommands.isEmpty then
      all_commands_list schema.root.subcommands
    else
      schema.root.all_commands
  commands.map (fun c => command_to_tool_with_config c config metadata.output_schema)

/-! ## Argument validation and argv marshaling -/

/-- Locate the command a tool call names:
`schema.root.all_commands().into_iter().find(|c| c.name == command_name)`. -/
def find_command (schema : ClapSchema) (command_name : String) : Option ClapCommand :=
  schema.root.all_commands.find? (fun c => c.name == command_name)

/-- The missing-required-ids list computed by `validate_required_args`:
required, non-built-in args whose map value does not stringify to a
non-empty string. -/
def missing_required_ids (cmd : ClapCommand)
    (arguments : List (String × Json)) : List String :=
  (cmd.args.filter (fun a =>
    if !a.required || is_builtin_arg a.id then false
    else
      match ((arguments.lookup a.id).bind value_to_string) with
      | some s => s.isEmpty
      | none => true)).map (fun a => a.id)

/-- The error message of `validate_required_args`, naming all missing ids. -/
def missing_message (missing : List String) : String :=
  "Missing required argument(s): " ++ String.intercalate ", " missing
    ++ ". The MCP tool schema marks these as required."

/-- `validate_required_args`. -/
def validate_required_args (schema : ClapSchema) (command_name : String)
    (arguments : List (String × Json)) : Except String Unit :=
  match find_command schema command_name with
  | none => .ok ()
  | some cmd =>
    let missing := missing_required_ids cmd arguments
    if missing.isEmpty then .ok ()
    else .error (missing_message missing)

/-- `build_tool_argv`: positional args (no long form) in index order, then
optional args as `--long value`, skipping entries whose value is absent or
stringifies to `None`. -/
def build_tool_argv (schema : ClapSchema) (command_name : String)
    (arguments : List (String × Json)) : List String :=
  match find_command schema command_name with
  | none => []
  | some cmd =>
    let args := cmd.args.filter (fun a => !is_builtin_arg a.id)
    let positionals := sortArgsByIndex (args.filter (fun a => a.long.isNone))
    let optionals := args.filter (fun a => a.long.isSome)
    (positionals.filterMap (fun a => (arguments.lookup a.id).bind value_to_string))
    ++ optionals.foldr (fun a acc =>
        match a.long, (arguments.lookup a.id).bind value_to_string with
        | some long, some s => ("--" ++ long) :: s :: acc
        | _, _ => acc) []

/-! ## Dispatcher (`Handler::handle_call_tool_request`) -/

/-- In-process tool output (`ClapMcpToolOutput`). -/
inductive ClapMcpToolOutput where
  | text (s : String)
  | structured (v : Json)

/-- In-process tool error (`ClapMcpToolError`). -/
structure ClapMcpToolError where
  message : String
  structured : Option Json

/-- A panic payload: a string payload (`&str` or `String`, which
`format_panic_payload` downcasts) or any other payload. -/
inductive PanicPayload where
  | strPayload (s : String)
  | otherPayload

/-- `format_panic_payload`. -/
def format_panic_payload : PanicPayload → String
  | .strPayload s => s
  | .otherPayload => "<panic>"

/-- The observable behavior of one in-process business-logic call: either
it returns, or it raises a panic with some payload. -/
inductive HandlerBehavior where
  | returns (r : Except ClapMcpToolError ClapMcpToolOutput)
  | panics (p : PanicPayload)

/-- The fields of `CallToolResult` the dispatcher produces: text content
blocks, the error marker, and optional structured content. -/
structure CallToolResult where
  content : List String
  is_error : Option Bool
  structured_content : Option (List (String × Json))

/-- `v.as_object().cloned()`. -/
def json_as_object : Json → Option (List (String × Json))
  | .obj fields => some fields
  | _ => none

/-- Protocol-level call errors (`CallToolError`): unknown tool, or invalid
arguments with a message. -/
inductive CallToolError where
  | unknownTool (name : String)
  | invalidArguments (tool : String) (message : String)

/-- How one `handle_call_tool_request` invocation ends: a protocol error
(`Err(CallToolError)`), a tool result (`Ok(CallToolResult)`), or an
uncaught panic escaping the dispatcher. -/
inductive DispatchOutcome where
  | protocolError (e : CallToolError)
  | result (r : CallToolResult)
  | panicked (p : PanicPayload)

/-- A dispatch outcome together with observation flags recording whether
the in-process business logic was invoked and whether a subprocess was
spawned. -/
structure DispatchResult where
  outcome : DispatchOutcome
  invoked_in_process : Bool
  invoked_subprocess : Bool

/-- Captured output of a spawned subprocess: exit status, exit code when
the process exited (none when killed by a signal), stdout and stderr. -/
structure SubprocessOutput where
  success : Bool
  code : Option Int
  stdout : String
  stderr : String

/-- The subprocess completion step of the dispatcher (lines 1870-1918 of
the source): non-zero exit becomes an error result stating the exit code,
with trimmed stderr appended after a `stderr:` marker when stderr is
non-empty; zero exit becomes a text result of trimmed stdout with the
same stderr suffix rule. -/
def subprocess_result (output : SubprocessOutput) : CallToolResult :=
  let err := output.stderr
  if !output.success then
    let code :=
      match output.code with
      | some c => toString c
      | none => "unknown"
    let msg := "Tool process exited with non-zero status (code: " ++ code ++ ")"
    let msg := if !err.isEmpty then msg ++ "\nstderr:\n" ++ err.trim else msg
    { content := [msg], is_error := some true, structured_content := none }
  else
    let text :=
      if err.isEmpty then output.stdout.trim
      else output.stdout.trim ++ "\nstderr:\n" ++ err.trim
    { content := [text], is_error := none, structured_content := none }

/-- The state the `Handler` closes over. The subprocess is modelled by an
oracle from the spawned argv to its captured output; the in-process
handler by an oracle from `(name, args)` to its observable behavior. The
schema is stored parsed (the source stores `schema_json` and re-parses
it, which succeeds for every schema this model can represent). -/
structure Handler where
  tools : List Tool
  schema : ClapSchema
  executable : Option (List String → SubprocessOutput)
  in_process_handler : Option (String → List (String × Json) → HandlerBehavior)
  root_name : String
  catch_in_process_panics : Bool

/-- The strict allow-list scan of the dispatcher: the first argument key
that is not among the declared properties of the tool, in map order. -/
def first_unknown_key (properties : List (String × Option String))
    (argKeys : List String) : Option String :=
  argKeys.find? (fun k => !(properties.any (fun p => p.1 == k)))

/-- All argument keys absent from the declared properties. -/
def unknown_keys (properties : List (String × Option String))
    (argKeys : List String) : List String :=
  argKeys.filter (fun k => !(properties.any (fun p => p.1 == k)))

/-- `Handler::handle_call_tool_request`: resolve the tool, reject unknown
argument keys, then dispatch in-process (catching panics when configured)
or to a subprocess (validating required args, marshaling argv), or answer
with the placeholder text when neither strategy is configured. -/
def handle_call_tool_request (h : Handler) (name : String)
    (arguments : Option (List (String × Json))) : DispatchResult :=
  match h.tools.find? (fun t => t.name == name) with
  | none => ⟨.protocolError (.unknownTool name), false, false⟩
  | some tool =>
    let args_map := arguments.getD []
    match first_unknown_key tool.properties (args_map.map (fun p => p.1)) with
    | some key =>
      ⟨.protocolError (.invalidArguments name ("unknown argument: " ++ key)),
        false, false⟩
    | none =>
      match h.in_process_handler with
      | some handler =>
        match handler name args_map with
        | .returns (.ok (.text s)) =>
          ⟨.result { content := [s], is_error := none, structured_content := none },
            true, false⟩
        | .returns (.ok (.structured v)) =>
          ⟨.result { content := [jsonRender v]
                     is_error := none
                     structured_content := json_as_object v }, true, false⟩
        | .returns (.error e) =>
          ⟨.result { content := [e.message]
                     is_error := some true
                     structured_content := e.structured.bind json_as_object },
            true, false⟩
        | .panics p =>
          if h.catch_in_process_panics then
            ⟨.result { content := ["Tool panicked: " ++ format_panic_payload p]
                       is_error := some true
                       structured_content := none }, true, false⟩
          else
            ⟨.panicked p, true, false⟩
      | none =>
        match h.executable with
        | some exec =>
          match validate_required_args h.schema name args_map with
          | .error e =>
            ⟨.result { content := [e]
                       is_error := some true
                       structured_content := none }, false, false⟩
          | .ok _ =>
            let argv := (if name != h.root_name then [name] else [])
              ++ build_tool_argv h.schema name args_map
            ⟨.result (subprocess_result (exec argv)), false, true⟩
        | none =>
          ⟨.result { content := ["Would invoke clap command \x27" ++ name
                       ++ "\x27 with arguments: " ++ jsonRender (.obj args_map)]
                     is_error := none
                     structured_content := none }, false, false⟩

/-- The serving loop at outcome granularity: calls are answered in order;
an uncaught panic escaping the dispatcher terminates the server, losing
every later call. -/
def serve_calls (h : Handler) :
    List (String × Option (List (String × Json))) →
    Except PanicPayload (List DispatchOutcome)
  | [] => .ok []
  | (n, a) :: rest =>
    match handle_call_tool_request h n a with
    | ⟨.panicked p, _, _⟩ => .error p
    | ⟨o, _, _⟩ => (serve_calls h rest).map (fun os => o :: os)

/-! ## Async runtime selector (`run_async_tool`) -/

/-- Which runtime hosts an in-process async tool body. -/
inductive RuntimeChoice where
  | dedicatedThread
  | sharedRuntime
  deriving DecidableEq

/-- The runtime selection branch of `run_async_tool`: the shared runtime
exactly when `reinvocation_safe && share_runtime`, otherwise a dedicated
single-threaded runtime on a fresh thread. -/
def select_runtime (config : ClapMcpConfig) : RuntimeChoice :=
  if config.reinvocation_safe && config.share_runtime then .sharedRuntime
  else .dedicatedThread

/-- The panic message of `Handle::try_current().expect(..)`. -/
def shareRuntimePanicMsg : String :=
  "share_runtime=true requires running within tokio runtime (use reinvocation_safe + share_runtime)"

/-- `run_async_tool` at outcome granularity: `runtime_active` observes
whether a tokio runtime is active on the calling thread
(`Handle::try_current()` succeeding), `result` is the value the future
resolves to, and `.error` models the fail-fast panic. On the dedicated
path a fresh single-threaded runtime on a fresh thread runs the future to
completion, the thread is joined, and the result propagates. -/
def run_async_tool {α : Type} (config : ClapMcpConfig) (runtime_active : Bool)
    (result : α) : Except String α :=
  if config.reinvocation_safe && config.share_runtime then
    if runtime_active then .ok result
    else .error shareRuntimePanicMsg
  else
    .ok result

/-! ## Spec-shaped definitions, for comparison against the source -/

/-- Whether `needle` occurs as a contiguous substring of `hay`: the
formalization of an error message naming an id. -/
def listLeadsWith : List Char → List Char → Bool
  | [], _ => true
  | _ :: _, [] => false
  | a :: as, b :: bs => a == b && listLeadsWith as bs

/-- `strMentions hay needle` holds when `needle` occurs inside `hay`. -/
def strMentions (hay needle : String) : Bool :=
  (List.range (hay.data.length + 1)).any
    (fun i => listLeadsWith needle.data (hay.data.drop i))

/-- The scalar-or-null value contract of `ToolCallArguments` in the spec
data model: a JSON object mapping ids to scalars or null. -/
def scalar_or_null : Json → Bool
  | .null => true
  | .bool _ => true
  | .num _ => true
  | .str _ => true
  | _ => false

/-- The spec wording of a satisfied required arg: a present, non-null,
non-empty scalar value in the argument map. -/
def present_non_null_non_empty_scalar (arguments : List (String × Json))
    (id : String) : Bool :=
  match arguments.lookup id with
  | some (.str s) => !s.isEmpty
  | some (.num _) => true
  | some (.bool _) => true
  | _ => false

/-- The spec wording of successful required-argument validation: every
required, non-built-in arg id of the named command has a present,
non-null, non-empty scalar value. -/
def required_args_satisfied (schema : ClapSchema) (command_name : String)
    (arguments : List (String × Json)) : Bool :=
  match find_command schema command_name with
  | none => true
  | some cmd =>
    cmd.args.all (fun a =>
      !a.required || is_builtin_arg a.id
        || present_non_null_non_empty_scalar arguments a.id)

/-- The stringification clause of the marshaling spec: strings pass
through unchanged, numbers and booleans render as their canonical text,
any other JSON shape renders as its JSON text (null is skipped). -/
def stringify_spec : Json → Option String
  | .null => none
  | .str s => some s
  | .num n => some (toString n)
  | .bool true => some "true"
  | .bool false => some "false"
  | .arr elems => some (jsonRender (.arr elems))
  | .obj fields => some (jsonRender (.obj fields))

/-- The marshaled token list exactly as the claim words it, with no
built-in-arg exclusion: values of positional (flagless) args bare in
declared-index order, then `--long value` for each flagged arg in schema
order, skipping absent and null values. -/
def marshal_claimed (schema : ClapSchema) (command_name : String)
    (arguments : List (String × Json)) : List String :=
  match find_command schema command_name with
  | none => []
  | some cmd =>
    (sortArgsByIndex (cmd.args.filter (fun a => a.long.isNone))).filterMap
      (fun a => (arguments.lookup a.id).bind stringify_spec)
    ++ (cmd.args.filter (fun a => a.long.isSome)).flatMap (fun a =>
        match a.long with
        | some long =>
          match (arguments.lookup a.id).bind stringify_spec with
          | some s => ["--" ++ long, s]
          | none => []
        | none => [])

/-- The claim amended with the built-in-arg exclusion of the source:
positionals and flagged args are drawn only from the non-built-in args. -/
def marshal_amended (schema : ClapSchema) (command_name : String)
    (arguments : List (String × Json)) : List String :=
  match find_command schema command_name with
  | none => []
  | some cmd =>
    let nonBuiltin := cmd.args.filter (fun a => !is_builtin_arg a.id)
    (sortArgsByIndex (nonBuiltin.filter (fun a => a.long.isNone))).filterMap
      (fun a => (arguments.lookup a.id).bind stringify_spec)
    ++ (nonBuiltin.filter (fun a => a.long.isSome)).flatMap (fun a =>
        match a.long with
        | some long =>
          match (arguments.lookup a.id).bind stringify_spec with
          | some s => ["--" ++ long, s]
          | none => []
        | none => [])

/-! ## Helper lemmas -/

/-- Strong induction over the (nested) command tree. -/
theorem ClapCommand.strong_induction {P : ClapCommand → Prop}
    (h : ∀ n a la v args subs, (∀ s ∈ subs, P s) → P (.mk n a la v args subs)) :
    ∀ c, P c := by
  have key : ∀ k (c : ClapCommand), sizeOf c ≤ k → P c := by
    intro k
    induction k with
    | zero =>
      intro c hc
      cases c with
      | mk n a la v args subs => simp [ClapCommand.mk.sizeOf_spec] at hc
    | succ k ih =>
      intro c hc
      cases c with
      | mk n a la v args subs =>
        apply h
        intro s hs
        apply ih
        have h1 := List.sizeOf_lt_of_mem hs
        simp only [ClapCommand.mk.sizeOf_spec] at hc
        omega
  intro c
  exact key (sizeOf c) c (Nat.le_refl _)

theorem all_commands_list_append (l1 l2 : List ClapCommand) :
    all_commands_list (l1 ++ l2) = all_commands_list l1 ++ all_commands_list l2 := by
  induction l1 with
  | nil => simp [all_commands_list]
  | cons c cs ih => simp [all_commands_list, ih]

theorem mem_all_commands_list {d : ClapCommand} {subs : List ClapCommand} :
    d ∈ all_commands_list subs ↔ ∃ s ∈ subs, d ∈ s.all_commands := by
  induction subs with
  | nil => simp [all_commands_list]
  | cons c cs ih =>
    simp only [all_commands_list, List.mem_append, ih, List.mem_cons]
    constructor
    · rintro (hd | ⟨s, hs, hds⟩)
      · exact ⟨c, Or.inl rfl, hd⟩
      · exact ⟨s, Or.inr hs, hds⟩
    · rintro ⟨s, hs | hs, hds⟩
      · exact Or.inl (hs ▸ hds)
      · exact Or.inr ⟨s, hs, hds⟩

theorem all_commands_eq (c : ClapCommand) :
    c.all_commands = c :: all_commands_list c.subcommands := by
  cases c with
  | mk n a la v args subs => rfl

theorem self_mem_all_commands (c : ClapCommand) : c ∈ c.all_commands := by
  rw [all_commands_eq]; exact List.mem_cons_self _ _

theorem find?_eq_head_filter {α : Type} (p : α → Bool) (l : List α) :
    l.find? p = (l.filter p).head? := by
  induction l with
  | nil => rfl
  | cons a as ih =>
    cases hpa : p a
    · rw [List.find?_cons_of_neg _ (by simp [hpa]),
        List.filter_cons_of_neg (by simp [hpa]), ih]
    · rw [List.find?_cons_of_pos _ hpa, List.filter_cons_of_pos hpa, List.head?_cons]

theorem map_eq_self_of {α : Type} {l : List α} {f : α → α}
    (h : ∀ a ∈ l, f a = a) : l.map f = l := by
  rw [List.map_congr_left h, List.map_id']

/-- `Nat.toDigits` never returns the empty digit list. -/
theorem toDigits_ne_nil (b n : Nat) : Nat.toDigits b n ≠ [] := by
  show Nat.toDigitsCore b (n + 1) n [] ≠ []
  simp only [Nat.toDigitsCore]
  split
  · simp
  · intro hcontra
    have h1 := Nat.toDigitsCore_lens_eq b n (n / b) (Nat.digitChar (n % b)) []
    rw [hcontra] at h1
    simp [Nat.toDigitsCore_lens_eq_aux] at h1

/-- The canonical text of an integer is never the empty string. -/
theorem int_toString_ne_empty (n : Int) : (toString n).isEmpty = false := by
  have hnat : ∀ m : Nat, (Nat.repr m).isEmpty = false := by
    intro m
    have h1 := toDigits_ne_nil 10 m
    rw [Bool.eq_false_iff]
    intro hcontra
    rw [String.isEmpty_iff] at hcontra
    apply h1
    have h2 : (Nat.toDigits 10 m).asString.data = (Nat.toDigits 10 m) := rfl
    rw [show Nat.repr m = (Nat.toDigits 10 m).asString from rfl] at hcontra
    rw [← h2, hcontra]
  cases n with
  | ofNat m => exact hnat m
  | negSucc m =>
    rw [Bool.eq_false_iff]
    intro hcontra
    rw [String.isEmpty_iff] at hcontra
    have h2 : (toString (Int.negSucc m)).data = '-' :: (Nat.repr (m + 1)).data := by
      show (Int.negSucc m).repr.data = _
      rw [Int.repr]
      exact String.data_append _ _
    rw [hcontra] at h2
    simp at h2

/-! ## Claim C6: async runtime selection -/

/-- Claim C6: the async runtime selection of `run_async_tool` is a
deterministic function of exactly `reinvocation_safe` and
`share_runtime`: whenever either is false a dedicated runtime runs the
future and the result propagates regardless of any active runtime; only
when both are true does it block on the already-active runtime, and with
no active runtime it fails fast with the expect-panic instead of
hanging. -/
theorem run_async_tool_selection (rs ps sr cp am active : Bool) (r : Nat) :
    ((rs = false ∨ sr = false) →
      select_runtime (ClapMcpConfig.mk rs ps sr cp am) = .dedicatedThread
        ∧ run_async_tool (ClapMcpConfig.mk rs ps sr cp am) active r = .ok r)
    ∧ (rs = true → sr = true →
      select_runtime (ClapMcpConfig.mk rs ps sr cp am) = .sharedRuntime
        ∧ (active = true →
            run_async_tool (ClapMcpConfig.mk rs ps sr cp am) active r = .ok r)
        ∧ (active = false →
            run_async_tool (ClapMcpConfig.mk rs ps sr cp am) active r
              = .error shareRuntimePanicMsg))
    ∧ (∀ c2 : ClapMcpConfig, c2.reinvocation_safe = rs → c2.share_runtime = sr →
        select_runtime c2 = select_runtime (ClapMcpConfig.mk rs ps sr cp am)) := by
  refine ⟨?_, ?_, ?_⟩
  · rintro (h | h) <;> subst h <;>
      simp [select_runtime, run_async_tool]
  · intro h1 h2
    subst h1; subst h2
    refine ⟨by simp [select_runtime], ?_, ?_⟩ <;> intro h3 <;> subst h3 <;>
      simp [run_async_tool]
  · intro c2 h1 h2
    cases c2 with
    | mk a b c d e =>
      simp only at h1 h2
      subst h1; subst h2
      rfl

/-- Witness for C6 at `reinvocation_safe = false`, `share_runtime = true`:
the dedicated runtime is chosen and the result propagates. -/
theorem run_async_tool_selection_witness :
    ((false : Bool) = false ∨ (true : Bool) = false)
    ∧ (select_runtime (ClapMcpConfig.mk false false true false false)
        = .dedicatedThread
      ∧ run_async_tool (ClapMcpConfig.mk false false true false false) false 5
        = .ok 5) :=
  ⟨Or.inl rfl,
    (run_async_tool_selection false false true false false false 5).1 (Or.inl rfl)⟩

/-! ## Claim C3: subprocess exit handling -/

/-- Claim C3: a subprocess exiting with non-zero status yields an error
result whose message states the numeric exit code and, when stderr is
non-empty, appends the trimmed stderr after a `stderr:` marker; a zero
exit yields a text result of the trimmed stdout with the same stderr
suffix rule. -/
theorem subprocess_exit_handling (o : SubprocessOutput) (c : Int) :
    (o.success = false → o.code = some c →
      subprocess_result o =
        { content := ["Tool process exited with non-zero status (code: "
              ++ toString c ++ ")"
              ++ (if o.stderr.isEmpty then "" else "\nstderr:\n" ++ o.stderr.trim)]
          is_error := some true
          structured_content := none })
    ∧ (o.success = true →
      subprocess_result o =
        { content := [o.stdout.trim
              ++ (if o.stderr.isEmpty then "" else "\nstderr:\n" ++ o.stderr.trim)]
          is_error := none
          structured_content := none }) := by
  constructor
  · intro hs hc
    cases he : o.stderr.isEmpty <;>
      simp [subprocess_result, hs, hc, he, String.append_empty,
        ← String.append_assoc]
  · intro hs
    cases he : o.stderr.isEmpty <;>
      simp [subprocess_result, hs, he, String.append_empty,
        ← String.append_assoc]

/-- Witness for C3: exit code 1 with stderr `boom` produces an
`is_error` result stating the code and appending the stderr. -/
theorem subprocess_exit_handling_witness :
    (SubprocessOutput.mk false (some 1) "" "boom").success = false
    ∧ (SubprocessOutput.mk false (some 1) "" "boom").code = some 1
    ∧ subprocess_result (SubprocessOutput.mk false (some 1) "" "boom") =
      { content := ["Tool process exited with non-zero status (code: "
            ++ toString (1 : Int) ++ ")"
            ++ (if ("boom" : String).isEmpty then ""
               else "\nstderr:\n" ++ ("boom" : String).trim)]
        is_error := some true
        structured_content := none } :=
  ⟨rfl, rfl,
    (subprocess_exit_handling (SubprocessOutput.mk false (some 1) "" "boom") 1).1
      rfl rfl⟩

/-! ## Claim C10: `command_with_mcp_flag` idempotence -/

/-- A degenerate command carrying two args with long flag `mcp`; a
representable `clap::Command` value, although clap itself would reject it
at build time. -/
def c10_two_mcp_cmd : ClapCommand :=
  .mk "app" none none none [mcpArg, mcpArg] []

/-- Counterexample to C10 as stated: on an input already carrying two
args with long flag `mcp`, `command_with_mcp_flag` returns the command
unchanged, so the result contains two—not exactly one—`mcp` args. -/
theorem command_with_mcp_flag_counterexample :
    command_with_mcp_flag c10_two_mcp_cmd = c10_two_mcp_cmd
    ∧ ((command_with_mcp_flag c10_two_mcp_cmd).args.filter
        (fun a => a.long == some MCP_FLAG_LONG)).length = 2 :=
  ⟨rfl, rfl⟩

/-- Claim C10 amended: if an arg with long flag `mcp` is present the
command is returned unchanged; applying `command_with_mcp_flag` twice
equals applying it once; the result always contains at least one arg with
long flag `mcp`, and exactly one whenever the input contains at most
one. -/
theorem command_with_mcp_flag_amended (cmd : ClapCommand) :
    (cmd.args.any (fun a => a.long == some MCP_FLAG_LONG) = true →
      command_with_mcp_flag cmd = cmd)
    ∧ command_with_mcp_flag (command_with_mcp_flag cmd) = command_with_mcp_flag cmd
    ∧ (command_with_mcp_flag cmd).args.any (fun a => a.long == some MCP_FLAG_LONG)
        = true
    ∧ ((cmd.args.filter (fun a => a.long == some MCP_FLAG_LONG)).length ≤ 1 →
      ((command_with_mcp_flag cmd).args.filter
        (fun a => a.long == some MCP_FLAG_LONG)).length = 1) := by
  cases cmd with
  | mk n a la v args subs =>
    simp only [ClapCommand.args]
    cases hany : args.any (fun x => x.long == some MCP_FLAG_LONG)
    · have h1 : command_with_mcp_flag (.mk n a la v args subs)
          = .mk n a la v (args ++ [mcpArg]) subs := by
        simp only [command_with_mcp_flag, hany]
        rfl
      have hnone : ∀ x ∈ args, ¬(x.long == some MCP_FLAG_LONG) = true := by
        intro x hx
        have := List.any_eq_false.mp hany
        exact this x hx
      have hany2 : (args ++ [mcpArg]).any (fun x => x.long == some MCP_FLAG_LONG)
          = true := by
        rw [List.any_append]
        simp [mcpArg]
      refine ⟨?_, ?_, ?_, ?_⟩
      · intro hcontra
        exact absurd hcontra (by simp [hany])
      · rw [h1]
        simp only [command_with_mcp_flag, hany2]
        rfl
      · rw [h1]
        exact hany2
      · intro _
        rw [h1]
        show ((args ++ [mcpArg]).filter (fun x => x.long == some MCP_FLAG_LONG)).length
          = 1
        rw [List.filter_append]
        have hfe : args.filter (fun x => x.long == some MCP_FLAG_LONG) = [] := by
          rw [List.filter_eq_nil_iff]
          exact hnone
        rw [hfe]
        simp [mcpArg]
    · have h1 : command_with_mcp_flag (.mk n a la v args subs)
          = .mk n a la v args subs := by
        simp only [command_with_mcp_flag, hany]
        rfl
      refine ⟨fun _ => h1, by rw [h1, h1], ?_, ?_⟩
      · rw [h1]
        exact hany
      · intro hle
        rw [h1]
        show (args.filter (fun x => x.long == some MCP_FLAG_LONG)).length = 1
        have hpos : 0 < (args.filter (fun x => x.long == some MCP_FLAG_LONG)).length := by
          obtain ⟨x, hx, hpx⟩ := List.any_eq_true.mp hany
          exact List.length_pos.mpr
            (List.ne_nil_of_mem (List.mem_filter.mpr ⟨hx, hpx⟩))
        omega

/-- Witness for C10 amended: a command with no `mcp` arg gains exactly
one. -/
theorem command_with_mcp_flag_amended_witness :
    ((ClapCommand.mk "app" none none none [] []).args.filter
      (fun a => a.long == some MCP_FLAG_LONG)).length ≤ 1
    ∧ ((command_with_mcp_flag (.mk "app" none none none [] [])).args.filter
      (fun a => a.long == some MCP_FLAG_LONG)).length = 1 :=
  ⟨by decide, (command_with_mcp_flag_amended (.mk "app" none none none [] [])).2.2.2
    (by decide)⟩

/-! ## Claim C5: argv marshaling -/

/-- A flagged arg whose id is the built-in `version`; clap schemas contain
such args, since the extractor keeps the auto-generated help and version
args. -/
def c5_version_arg : ClapArg :=
  { id := "version"
    long := some "version"
    short := none
    help := none
    long_help := none
    required := false
    global := false
    index := none
    action := none
    value_names := []
    num_args := none }

def c5_schema : ClapSchema := ⟨.mk "app" none none none [c5_version_arg] []⟩

def c5_args : List (String × Json) := [("version", .str "1")]

/-- Counterexample to C5 as stated: the claim prescribes emitting every
flagged arg of the schema, but `build_tool_argv` silently drops built-in
arg ids (help, version, mcp); on a schema with a flagged `version` arg
the claimed token list is `--version 1` while the code emits nothing. -/
theorem build_tool_argv_counterexample :
    build_tool_argv c5_schema "app" c5_args = []
    ∧ marshal_claimed c5_schema "app" c5_args = ["--version", "1"]
    ∧ build_tool_argv c5_schema "app" c5_args
        ≠ marshal_claimed c5_schema "app" c5_args :=
  ⟨rfl, rfl, by decide⟩

theorem value_to_string_eq_stringify_spec (v : Json) :
    value_to_string v = stringify_spec v := by
  cases v with
  | null => rfl
  | bool b => cases b <;> rfl
  | num n => rfl
  | str s => rfl
  | arr elems => rfl
  | obj fields => rfl

/-- Claim C5 amended: restricted to the non-built-in args of the named
command, the marshaled token list is exactly as the claim words it:
positional values bare in declared-index order, then `--long value` per
flagged arg in schema order, skipping absent and null values, with
strings passed through, numbers and booleans in canonical text, and any
other JSON shape as its JSON text. -/
theorem build_tool_argv_amended (schema : ClapSchema) (command_name : String)
    (arguments : List (String × Json)) :
    build_tool_argv schema command_name arguments
      = marshal_amended schema command_name arguments := by
  unfold build_tool_argv marshal_amended
  cases find_command schema command_name with
  | none => rfl
  | some cmd =>
    simp only
    rw [show value_to_string = stringify_spec from
      funext value_to_string_eq_stringify_spec]
    have hopt : ∀ l : List ClapArg,
        l.foldr (fun a acc =>
          match a.long, (arguments.lookup a.id).bind stringify_spec with
          | some long, some s => ("--" ++ long) :: s :: acc
          | _, _ => acc) []
        = l.flatMap (fun a =>
            match a.long with
            | some long =>
              match (arguments.lookup a.id).bind stringify_spec with
              | some s => ["--" ++ long, s]
              | none => []
            | none => []) := by
      intro l
      induction l with
      | nil => rfl
      | cons a as ih =>
        rw [List.foldr_cons, List.flatMap_cons, ih]
        cases a.long with
        | none => rfl
        | some long =>
          cases (arguments.lookup a.id).bind stringify_spec with
          | none => rfl
          | some s => rfl
    rw [hopt]

/-! ## Claim C1: unknown-argument rejection -/

theorem listLeadsWith_self (l : List Char) : listLeadsWith l l = true := by
  induction l with
  | nil => rfl
  | cons c cs ih => simp [listLeadsWith, ih]

/-- A string mentions any suffix appended to it. -/
theorem strMentions_append_right (pre k : String) :
    strMentions (pre ++ k) k = true := by
  apply List.any_eq_true.mpr
  refine ⟨pre.data.length, ?_, ?_⟩
  · apply List.mem_range.mpr
    rw [String.data_append, List.length_append]
    omega
  · rw [String.data_append, List.drop_left]
    exact listLeadsWith_self k.data

/-- Claim C1 amended: a call whose argument map contains keys outside the
declared properties of the tool is rejected before any business logic or
subprocess runs, with an unknown-argument error that names the first
offending key in map order (not every offending key). -/
theorem dispatch_unknown_argument (h : Handler) (name : String)
    (args : List (String × Json)) (tool : Tool) (k : String)
    (htool : h.tools.find? (fun t => t.name == name) = some tool)
    (hk : first_unknown_key tool.properties (args.map Prod.fst) = some k) :
    handle_call_tool_request h name (some args)
      = ⟨.protocolError (.invalidArguments name ("unknown argument: " ++ k)),
          false, false⟩
    ∧ some k = (unknown_keys tool.properties (args.map Prod.fst)).head?
    ∧ unknown_keys tool.properties (args.map Prod.fst) ≠ []
    ∧ strMentions ("unknown argument: " ++ k) k = true := by
  have hhead : some k = (unknown_keys tool.properties (args.map Prod.fst)).head? := by
    rw [← hk]
    exact (find?_eq_head_filter _ _)
  refine ⟨?_, hhead, ?_, strMentions_append_right _ _⟩
  · simp only [handle_call_tool_request, htool, Option.getD_some, hk]
  · intro hnil
    rw [hnil] at hhead
    cases hhead

def c1_tool : Tool :=
  { name := "t"
    title := none
    description := none
    required := []
    properties := [("a", none)]
    reinvocationSafe := false
    parallelSafe := false
    shareRuntime := false
    output_schema := none }

def c1_handler : Handler :=
  { tools := [c1_tool]
    schema := ⟨.mk "t" none none none [] []⟩
    executable := none
    in_process_handler := none
    root_name := "t"
    catch_in_process_panics := false }

def c1_args : List (String × Json) := [("x", .str "1"), ("y", .str "2")]

/-- Counterexample to C1 as stated: with two offending keys `x` and `y`,
the dispatcher rejects with a message naming only the first (`x`); the
offending key `y` is not mentioned anywhere in the message, so the error
does not name every offending key. -/
theorem dispatch_unknown_argument_counterexample :
    (handle_call_tool_request c1_handler "t" (some c1_args)).outcome
      = .protocolError (.invalidArguments "t" ("unknown argument: " ++ "x"))
    ∧ unknown_keys c1_tool.properties (c1_args.map Prod.fst) = ["x", "y"]
    ∧ strMentions ("unknown argument: " ++ "x") "y" = false :=
  ⟨rfl, rfl, by decide⟩

/-- Witness for C1 amended, at the same concrete call: the rejection is
produced with the flags showing that neither the business logic nor a
subprocess ran. -/
theorem dispatch_unknown_argument_witness :
    c1_handler.tools.find? (fun t => t.name == "t") = some c1_tool
    ∧ first_unknown_key c1_tool.properties (c1_args.map Prod.fst) = some "x"
    ∧ (handle_call_tool_request c1_handler "t" (some c1_args)
        = ⟨.protocolError (.invalidArguments "t" ("unknown argument: " ++ "x")),
            false, false⟩
      ∧ some "x" = (unknown_keys c1_tool.properties (c1_args.map Prod.fst)).head?
      ∧ unknown_keys c1_tool.properties (c1_args.map Prod.fst) ≠ []
      ∧ strMentions ("unknown argument: " ++ "x") "x" = true) :=
  ⟨rfl, rfl, dispatch_unknown_argument c1_handler "t" c1_args c1_tool "x" rfl rfl⟩

/-! ## Claim C2: required-argument validation -/

theorem lookup_mem {l : List (String × Json)} {k : String} {v : Json}
    (h : l.lookup k = some v) : ∃ k2, (k2, v) ∈ l := by
  induction l with
  | nil => cases h
  | cons p ps ih =>
    obtain ⟨k1, v1⟩ := p
    cases hk : k == k1
    · simp only [List.lookup_cons, hk] at h
      obtain ⟨k2, hk2⟩ := ih h
      exact ⟨k2, List.mem_cons_of_mem _ hk2⟩
    · simp only [List.lookup_cons, hk] at h
      obtain rfl : v1 = v := Option.some_inj.mp h
      exact ⟨k1, List.mem_cons_self _ _⟩

/-- Under the scalar-or-null value contract, the source has-value check
(`value_to_string` yields a non-empty string) coincides with the claim
wording: a present, non-null, non-empty scalar value. -/
theorem has_value_eq_spec {arguments : List (String × Json)}
    (hscalar : ∀ p ∈ arguments, scalar_or_null p.2 = true) (id : String) :
    (match (arguments.lookup id).bind value_to_string with
      | some s => !s.isEmpty
      | none => false)
      = present_non_null_non_empty_scalar arguments id := by
  unfold present_non_null_non_empty_scalar
  cases hl : arguments.lookup id with
  | none => rfl
  | some v =>
    obtain ⟨k2, hk2⟩ := lookup_mem hl
    have hv := hscalar (k2, v) hk2
    cases v with
    | null => rfl
    | str s => rfl
    | num n => simp [value_to_string, Option.bind, int_toString_ne_empty]
    | bool b => cases b <;> rfl
    | arr elems => cases hv
    | obj fields => cases hv

/-- Claim C2: required-argument validation succeeds exactly when every
required, non-built-in arg id of the named command has a present,
non-null, non-empty scalar value; on failure the error message is built
from the complete list of missing ids at once. -/
theorem validate_required_args_spec (schema : ClapSchema) (command_name : String)
    (arguments : List (String × Json))
    (hscalar : ∀ p ∈ arguments, scalar_or_null p.2 = true) :
    ((validate_required_args schema command_name arguments = .ok ())
      ↔ required_args_satisfied schema command_name arguments = true)
    ∧ (∀ msg, validate_required_args schema command_name arguments = .error msg →
        ∃ cmd, find_command schema command_name = some cmd
          ∧ missing_required_ids cmd arguments ≠ []
          ∧ msg = missing_message (missing_required_ids cmd arguments)
          ∧ missing_required_ids cmd arguments
              = (cmd.args.filter (fun a => a.required && !is_builtin_arg a.id
                  && !present_non_null_non_empty_scalar arguments a.id)).map
                  (fun a => a.id)) := by
  have hpred : (fun a : ClapArg =>
      if !a.required || is_builtin_arg a.id then false
      else
        match ((arguments.lookup a.id).bind value_to_string) with
        | some s => s.isEmpty
        | none => true)
      = (fun a : ClapArg => a.required && !is_builtin_arg a.id
          && !present_non_null_non_empty_scalar arguments a.id) := by
    funext a
    rw [← has_value_eq_spec hscalar a.id]
    cases hr : a.required <;> cases hb : is_builtin_arg a.id <;>
      cases hlv : (arguments.lookup a.id).bind value_to_string <;>
        simp [hr, hb, hlv]
  have hmiss : ∀ cmd : ClapCommand, missing_required_ids cmd arguments
      = (cmd.args.filter (fun a => a.required && !is_builtin_arg a.id
          && !present_non_null_non_empty_scalar arguments a.id)).map
          (fun a => a.id) := by
    intro cmd
    unfold missing_required_ids
    rw [hpred]
  have hmiss_iff : ∀ cmd : ClapCommand,
      (missing_required_ids cmd arguments = []
        ↔ cmd.args.all (fun a => !a.required || is_builtin_arg a.id
            || present_non_null_non_empty_scalar arguments a.id) = true) := by
    intro cmd
    rw [hmiss, List.map_eq_nil_iff, List.filter_eq_nil_iff, List.all_eq_true]
    constructor
    · intro hall x hx
      have h1 := hall x hx
      cases h2 : x.required <;> cases h3 : is_builtin_arg x.id <;>
        cases h4 : present_non_null_non_empty_scalar arguments x.id <;>
          simp_all
    · intro hall x hx
      have h1 := hall x hx
      cases h2 : x.required <;> cases h3 : is_builtin_arg x.id <;>
        cases h4 : present_non_null_non_empty_scalar arguments x.id <;>
          simp_all
  cases hf : find_command schema command_name with
  | none =>
    have h1 : validate_required_args schema command_name arguments = .ok () := by
      unfold validate_required_args
      rw [hf]
    have h2 : required_args_satisfied schema command_name arguments = true := by
      unfold required_args_satisfied
      rw [hf]
    refine ⟨by simp [h1, h2], ?_⟩
    intro msg hcontra
    rw [h1] at hcontra
    exact Except.noConfusion hcontra
  | some cmd =>
    have h1 : validate_required_args schema command_name arguments
        = if (missing_required_ids cmd arguments).isEmpty then .ok ()
          else .error (missing_message (missing_required_ids cmd arguments)) := by
      unfold validate_required_args
      rw [hf]
    have h2 : required_args_satisfied schema command_name arguments
        = cmd.args.all (fun a => !a.required || is_builtin_arg a.id
            || present_non_null_non_empty_scalar arguments a.id) := by
      unfold required_args_satisfied
      rw [hf]
    constructor
    · rw [h1, h2]
      cases hm : (missing_required_ids cmd arguments).isEmpty
      · rw [if_neg (by simp [hm])]
        constructor
        · intro hcontra
          exact Except.noConfusion hcontra
        · intro hsat
          have h3 := (hmiss_iff cmd).mpr hsat
          rw [h3] at hm
          exact Bool.noConfusion hm
      · rw [if_pos (by simp [hm])]
        have h3 := (hmiss_iff cmd).mp (List.isEmpty_iff.mp hm)
        exact iff_of_true rfl h3
    · intro msg hmsg
      rw [h1] at hmsg
      cases hm : (missing_required_ids cmd arguments).isEmpty
      · rw [if_neg (by simp [hm])] at hmsg
        refine ⟨cmd, rfl, ?_, ?_, hmiss cmd⟩
        · intro hnil
          rw [hnil] at hm
          exact Bool.noConfusion hm
        · cases hmsg
          rfl
      · rw [if_pos (by simp [hm])] at hmsg
        exact Except.noConfusion hmsg

def c2_req_arg (s : String) : ClapArg :=
  { id := s
    long := some s
    short := none
    help := none
    long_help := none
    required := true
    global := false
    index := none
    action := none
    value_names := []
    num_args := none }

def c2_schema : ClapSchema :=
  ⟨.mk "app" none none none [c2_req_arg "alpha", c2_req_arg "beta", c2_req_arg "gamma"] []⟩

def c2_args : List (String × Json) := [("gamma", .str "v")]

/-- Witness for C2: a tool missing 2 of its 3 required args is rejected
with a message naming both missing ids at once. -/
theorem validate_required_args_spec_witness :
    (∀ p ∈ c2_args, scalar_or_null p.2 = true)
    ∧ (((validate_required_args c2_schema "app" c2_args = .ok ())
        ↔ required_args_satisfied c2_schema "app" c2_args = true)
      ∧ (∀ msg, validate_required_args c2_schema "app" c2_args = .error msg →
          ∃ cmd, find_command c2_schema "app" = some cmd
            ∧ missing_required_ids cmd c2_args ≠ []
            ∧ msg = missing_message (missing_required_ids cmd c2_args)
            ∧ missing_required_ids cmd c2_args
                = (cmd.args.filter (fun a => a.required && !is_builtin_arg a.id
                    && !present_non_null_non_empty_scalar c2_args a.id)).map
                    (fun a => a.id)))
    ∧ validate_required_args c2_schema "app" c2_args
        = .error (missing_message ["alpha", "beta"]) :=
  ⟨by decide, validate_required_args_spec c2_schema "app" c2_args (by decide), rfl⟩

/-! ## Claim C4: in-process panic boundary -/

/-- With panic catching enabled no dispatch can end in an uncaught
panic: every branch of the dispatcher returns a value. -/
theorem outcome_ne_panicked_of_catch (h : Handler)
    (hcatch : h.catch_in_process_panics = true) (n : String)
    (a : Option (List (String × Json))) (q : PanicPayload) :
    (handle_call_tool_request h n a).outcome ≠ .panicked q := by
  intro hcontra
  cases hfind : h.tools.find? (fun t => t.name == n) with
  | none => simp [handle_call_tool_request, hfind] at hcontra
  | some tool =>
    cases hfk : first_unknown_key tool.properties ((a.getD []).map (fun p => p.1)) with
    | some k => simp [handle_call_tool_request, hfind, hfk] at hcontra
    | none =>
      cases hip : h.in_process_handler with
      | some handler =>
        cases hb : handler n (a.getD []) with
        | returns r =>
          cases r with
          | ok o =>
            cases o <;> simp [handle_call_tool_request, hfind, hfk, hip, hb] at hcontra
          | error e =>
            simp [handle_call_tool_request, hfind, hfk, hip, hb] at hcontra
        | panics p2 =>
          simp [handle_call_tool_request, hfind, hfk, hip, hb, hcatch] at hcontra
      | none =>
        cases hex : h.executable with
        | some exec =>
          cases hv : validate_required_args h.schema n (a.getD []) with
          | ok u =>
            simp [handle_call_tool_request, hfind, hfk, hip, hex, hv] at hcontra
          | error e =>
            simp [handle_call_tool_request, hfind, hfk, hip, hex, hv] at hcontra
        | none =>
          simp [handle_call_tool_request, hfind, hfk, hip, hex] at hcontra

/-- With panic catching enabled the serving loop answers every call. -/
theorem serve_calls_ok_of_catch (h : Handler)
    (hcatch : h.catch_in_process_panics = true)
    (calls : List (String × Option (List (String × Json)))) :
    serve_calls h calls
      = .ok (calls.map (fun c => (handle_call_tool_request h c.1 c.2).outcome)) := by
  induction calls with
  | nil => rfl
  | cons c rest ih =>
    obtain ⟨n, a⟩ := c
    have hne := outcome_ne_panicked_of_catch h hcatch n a
    rw [serve_calls]
    cases hr : handle_call_tool_request h n a with
    | mk o i1 i2 =>
      cases o with
      | panicked p =>
        exact absurd (by rw [hr]) (hne p)
      | protocolError e =>
        simp only [ih, Option.map, List.map_cons, hr, Except.map]
      | result r =>
        simp only [ih, Option.map, List.map_cons, hr, Except.map]

/-- Claim C4: a panic in the in-process tool body is intercepted when
`catch_in_process_panics` is true and converted to an error result naming
the panic payload, after which the server goes on answering every
subsequent call; when false, the panic escapes the dispatcher
uncaught. -/
theorem dispatch_panic_boundary (h : Handler) (name : String)
    (args : List (String × Json)) (tool : Tool)
    (handler : String → List (String × Json) → HandlerBehavior)
    (p : PanicPayload) (calls : List (String × Option (List (String × Json))))
    (htool : h.tools.find? (fun t => t.name == name) = some tool)
    (hnk : first_unknown_key tool.properties (args.map Prod.fst) = none)
    (hh : h.in_process_handler = some handler)
    (hp : handler name args = .panics p) :
    (h.catch_in_process_panics = true →
      handle_call_tool_request h name (some args)
        = ⟨.result { content := ["Tool panicked: " ++ format_panic_payload p]
                     is_error := some true
                     structured_content := none }, true, false⟩)
    ∧ (h.catch_in_process_panics = false →
      handle_call_tool_request h name (some args) = ⟨.panicked p, true, false⟩)
    ∧ (h.catch_in_process_panics = true →
      serve_calls h calls
        = .ok (calls.map (fun c => (handle_call_tool_request h c.1 c.2).outcome))) := by
  refine ⟨?_, ?_, fun hcatch => serve_calls_ok_of_catch h hcatch calls⟩
  · intro hcatch
    simp only [handle_call_tool_request, htool, Option.getD_some, hnk, hh, hp,
      hcatch, if_true]
  · intro hcatch
    simp only [handle_call_tool_request, htool, Option.getD_some, hnk, hh, hp,
      hcatch, Bool.false_eq_true, if_false]

def c4_tool : Tool :=
  { name := "t"
    title := none
    description := none
    required := []
    properties := []
    reinvocationSafe := true
    parallelSafe := false
    shareRuntime := false
    output_schema := none }

def c4_handler_fn : String → List (String × Json) → HandlerBehavior :=
  fun _ _ => .panics (.strPayload "boom")

def c4_handler : Handler :=
  { tools := [c4_tool]
    schema := ⟨.mk "t" none none none [] []⟩
    executable := none
    in_process_handler := some c4_handler_fn
    root_name := "t"
    catch_in_process_panics := true }

/-- Witness for C4: a faulting tool body under catching yields an
`is_error` result naming the payload, and a two-call sequence is answered
in full. -/
theorem dispatch_panic_boundary_witness :
    c4_handler.tools.find? (fun t => t.name == "t") = some c4_tool
    ∧ first_unknown_key c4_tool.properties (([] : List (String × Json)).map Prod.fst)
        = none
    ∧ c4_handler.in_process_handler = some c4_handler_fn
    ∧ c4_handler_fn "t" [] = .panics (.strPayload "boom")
    ∧ ((c4_handler.catch_in_process_panics = true →
        handle_call_tool_request c4_handler "t" (some [])
          = ⟨.result { content := ["Tool panicked: " ++ format_panic_payload (.strPayload "boom")]
                       is_error := some true
                       structured_content := none }, true, false⟩)
      ∧ (c4_handler.catch_in_process_panics = false →
        handle_call_tool_request c4_handler "t" (some [])
          = ⟨.panicked (.strPayload "boom"), true, false⟩)
      ∧ (c4_handler.catch_in_process_panics = true →
        serve_calls c4_handler [("t", none), ("t", some [])]
          = .ok ([("t", none), ("t", some [])].map
              (fun c => (handle_call_tool_request c4_handler c.1 c.2).outcome)))) :=
  ⟨rfl, rfl, rfl, rfl,
    dispatch_panic_boundary c4_handler "t" [] c4_tool c4_handler_fn
      (.strPayload "boom") [("t", none), ("t", some [])] rfl rfl rfl rfl⟩

/-! ## Claim C7: built-in args and the schema metadata filter -/

/-- Tracing a member of the processed arg list of
`command_to_schema_with_metadata` back to the filtered source arg it came
from: the forced-required update preserves id and long flag. -/
theorem mem_processed_args {metadata : ClapMcpSchemaMetadata} {name : String}
    {args : List ClapArg} {x : ClapArg}
    (hx : x ∈ processArgs metadata name args) :
    ∃ b ∈ (args.filter (fun a => a.long != some MCP_FLAG_LONG)).filter
        (fun a => !(lookupIds metadata.skip_args name).contains a.id),
      x = (if (lookupIds metadata.requires_args name).contains b.id
          then { b with required := true } else b)
      ∧ x.id = b.id ∧ x.long = b.long := by
  simp only [processArgs] at hx
  rw [sortArgsById, List.mem_insertionSort] at hx
  obtain ⟨b, hb, rfl⟩ := List.mem_map.mp hx
  refine ⟨b, hb, rfl, ?_, ?_⟩ <;>
    cases hreq : (lookupIds metadata.requires_args name).contains b.id <;>
      simp [hreq]

theorem mem_subcommands_to_schema {metadata : ClapMcpSchemaMetadata}
    {sk : List String} {subs : List ClapCommand} {s2 : ClapCommand}
    (h : s2 ∈ subcommands_to_schema metadata sk subs) :
    ∃ s ∈ subs, s2 = command_to_schema_with_metadata metadata sk s := by
  induction subs with
  | nil => cases h
  | cons c cs ih =>
    rw [subcommands_to_schema, List.mem_append] at h
    rcases h with h | h
    · cases hskip : sk.contains c.name
      · rw [if_neg (by rw [hskip]; exact Bool.false_ne_true)] at h
        rw [List.mem_singleton] at h
        exact ⟨c, List.mem_cons_self _ _, h⟩
      · rw [if_pos hskip] at h
        cases h
    · obtain ⟨s, hs, h2⟩ := ih h
      exact ⟨s, List.mem_cons_of_mem _ hs, h2⟩

def c7_help_arg : ClapArg :=
  { id := "help"
    long := some "help"
    short := some 'h'
    help := some "Print help"
    long_help := none
    required := false
    global := false
    index := none
    action := some "Help"
    value_names := []
    num_args := none }

def c7_cmd : ClapCommand := .mk "app" none none none [c7_help_arg] []

/-- Counterexample to C7 as stated: the schema metadata filter keeps an
arg with the built-in id `help`; only args with long flag `mcp` are
dropped at this stage (help and version are excluded later, by the tool
catalog builder). -/
theorem schema_filter_counterexample :
    (schema_from_command_with_metadata c7_cmd {}).root.args.map (fun a => a.id)
      = ["help"]
    ∧ ((schema_from_command_with_metadata c7_cmd {}).root.args.any
        (fun a => is_builtin_arg a.id)) = true :=
  ⟨rfl, rfl⟩

/-- Claim C7 amended: for every command tree and every metadata, the
filtered schema excludes, from the arg list of every command, every arg
whose long flag is the server-mode flag `mcp` — regardless of what the
metadata specifies; the built-in ids help and version are not removed at
this stage. -/
theorem schema_filter_excludes_mcp (metadata : ClapMcpSchemaMetadata)
    (sk : List String) (cmd : ClapCommand) :
    ((command_to_schema_with_metadata metadata sk cmd).all_commands.all
      (fun c => c.args.all (fun a => a.long != some MCP_FLAG_LONG))) = true := by
  refine @ClapCommand.strong_induction
    (fun c => ((command_to_schema_with_metadata metadata sk c).all_commands.all
      (fun c2 => c2.args.all (fun a2 => a2.long != some MCP_FLAG_LONG))) = true)
    ?_ cmd
  intro n a la v args subs ih
  simp only [command_to_schema_with_metadata]
  rw [all_commands_eq, List.all_cons, Bool.and_eq_true]
  constructor
  · simp only [ClapCommand.args]
    apply List.all_eq_true.mpr
    intro x hx
    obtain ⟨b, hb, hxb, hid, hlong⟩ := mem_processed_args hx
    have hb1 := (List.mem_filter.mp hb).1
    have hmcp := (List.mem_filter.mp hb1).2
    rw [hlong]
    exact hmcp
  · simp only [ClapCommand.subcommands]
    apply List.all_eq_true.mpr
    intro d hd
    obtain ⟨s2, hs2, hds2⟩ := mem_all_commands_list.mp hd
    obtain ⟨s, hs, rfl⟩ := mem_subcommands_to_schema hs2
    exact List.all_eq_true.mp (ih s hs) d hds2

/-! ## Claim C8: tool catalog order -/

/-- Pre-order character of `all_commands`: every listed node splits the
traversal at its own position, with all of its children strictly after
it. -/
theorem mem_all_commands_split (c : ClapCommand) :
    ∀ d ∈ c.all_commands, ∃ pre post,
      c.all_commands = pre ++ d :: post ∧ ∀ s ∈ d.subcommands, s ∈ post := by
  refine @ClapCommand.strong_induction
    (fun c => ∀ d ∈ c.all_commands, ∃ pre post,
      c.all_commands = pre ++ d :: post ∧ ∀ s ∈ d.subcommands, s ∈ post)
    ?_ c
  intro n a la v args subs ih d hd
  rw [all_commands_eq] at hd ⊢
  simp only [ClapCommand.subcommands] at hd ⊢
  rcases List.mem_cons.mp hd with hd | hd
  · subst hd
    refine ⟨[], all_commands_list subs, rfl, ?_⟩
    intro s hs
    simp only [ClapCommand.subcommands] at hs
    exact mem_all_commands_list.mpr ⟨s, hs, self_mem_all_commands s⟩
  · obtain ⟨s, hs, hds⟩ := mem_all_commands_list.mp hd
    obtain ⟨pre1, post1, heq, hpost⟩ := ih s hs d hds
    obtain ⟨l1, l2, rfl⟩ := List.append_of_mem hs
    rw [all_commands_list_append]
    rw [show all_commands_list (s :: l2)
        = s.all_commands ++ all_commands_list l2 from rfl]
    rw [heq]
    refine ⟨.mk n a la v args (l1 ++ s :: l2) :: (all_commands_list l1 ++ pre1),
      post1 ++ all_commands_list l2, ?_, ?_⟩
    · simp [List.append_assoc]
    · intro s2 hs2
      exact List.mem_append_left _ (hpost s2 hs2)

/-- Claim C8: the tool catalog has exactly one descriptor per retained
schema node, in pre-order (root first, each node before its children),
stable across repeated calls; when the metadata requests root-skip and
the root has subcommands, only the descendants are emitted (still in
pre-order). -/
theorem tool_catalog (schema : ClapSchema) (config : ClapMcpConfig)
    (metadata : ClapMcpSchemaMetadata) :
    (tools_from_schema_with_config_and_metadata schema config metadata
      = (if metadata.skip_root_command_when_subcommands
            && !schema.root.subcommands.isEmpty
         then all_commands_list schema.root.subcommands
         else schema.root.all_commands).map
          (fun c => command_to_tool_with_config c config metadata.output_schema))
    ∧ ((tools_from_schema_with_config_and_metadata schema config metadata).map
        (fun t => t.name)
      = (if metadata.skip_root_command_when_subcommands
            && !schema.root.subcommands.isEmpty
         then all_commands_list schema.root.subcommands
         else schema.root.all_commands).map (fun c => c.name))
    ∧ schema.root.all_commands.head? = some schema.root
    ∧ (∀ d ∈ schema.root.all_commands, ∃ pre post,
        schema.root.all_commands = pre ++ d :: post
          ∧ ∀ s ∈ d.subcommands, s ∈ post)
    ∧ tools_from_schema_with_config_and_metadata schema config metadata
      = tools_from_schema_with_config_and_metadata schema config metadata := by
  refine ⟨rfl, ?_, ?_, mem_all_commands_split schema.root, rfl⟩
  · rw [tools_from_schema_with_config_and_metadata]
    simp only [List.map_map]
    apply List.map_congr_left
    intro c _
    cases c with
    | mk n a la v args subs => rfl
  · rw [all_commands_eq, List.head?_cons]

def c8_schema : ClapSchema :=
  ⟨.mk "root" none none none [] [.mk "child" none none none [] []]⟩

/-- Witness for C8 at a two-node schema, including the pre-order split of
the child node. -/
theorem tool_catalog_witness :
    (tools_from_schema_with_config_and_metadata c8_schema {} {}
      = (if ClapMcpSchemaMetadata.skip_root_command_when_subcommands {}
            && !c8_schema.root.subcommands.isEmpty
         then all_commands_list c8_schema.root.subcommands
         else c8_schema.root.all_commands).map
          (fun c => command_to_tool_with_config c {}
            (ClapMcpSchemaMetadata.output_schema {})))
    ∧ ((tools_from_schema_with_config_and_metadata c8_schema {} {}).map
        (fun t => t.name)
      = (if ClapMcpSchemaMetadata.skip_root_command_when_subcommands {}
            && !c8_schema.root.subcommands.isEmpty
         then all_commands_list c8_schema.root.subcommands
         else c8_schema.root.all_commands).map (fun c => c.name))
    ∧ c8_schema.root.all_commands.head? = some c8_schema.root
    ∧ (∀ d ∈ c8_schema.root.all_commands, ∃ pre post,
        c8_schema.root.all_commands = pre ++ d :: post
          ∧ ∀ s ∈ d.subcommands, s ∈ post)
    ∧ tools_from_schema_with_config_and_metadata c8_schema {} {}
      = tools_from_schema_with_config_and_metadata c8_schema {} {} :=
  tool_catalog c8_schema {} {}

/-! ## Claim C9: idempotence of the schema metadata filter -/

theorem required_update_self {y : ClapArg} (h : y.required = true) :
    ({ y with required := true } : ClapArg) = y := by
  cases y
  simp_all

theorem command_to_schema_name (metadata : ClapMcpSchemaMetadata)
    (sk : List String) (c : ClapCommand) :
    (command_to_schema_with_metadata metadata sk c).name = c.name := by
  cases c
  rfl

theorem subcommands_to_schema_append (metadata : ClapMcpSchemaMetadata)
    (sk : List String) (l1 l2 : List ClapCommand) :
    subcommands_to_schema metadata sk (l1 ++ l2)
      = subcommands_to_schema metadata sk l1 ++ subcommands_to_schema metadata sk l2 := by
  induction l1 with
  | nil => rfl
  | cons c cs ih =>
    show (if sk.contains c.name then [] else [command_to_schema_with_metadata metadata sk c])
        ++ subcommands_to_schema metadata sk (cs ++ l2) = _
    rw [ih, subcommands_to_schema, List.append_assoc]

/-- The arg-processing pipeline of the filter (drop mcp-long args, drop
skipped ids, force required ids, sort by id) is idempotent. -/
theorem processed_args_idempotent (metadata : ClapMcpSchemaMetadata)
    (n : String) (args : List ClapArg) :
    processArgs metadata n (processArgs metadata n args)
      = processArgs metadata n args := by
  have ha : (processArgs metadata n args).filter
      (fun a => a.long != some MCP_FLAG_LONG) = processArgs metadata n args := by
    apply List.filter_eq_self.mpr
    intro x hx
    obtain ⟨b, hb, hxb, hid, hlong⟩ := mem_processed_args hx
    rw [hlong]
    exact (List.mem_filter.mp ((List.mem_filter.mp hb).1)).2
  have hb2 : (processArgs metadata n args).filter
      (fun a => !(lookupIds metadata.skip_args n).contains a.id)
      = processArgs metadata n args := by
    apply List.filter_eq_self.mpr
    intro x hx
    obtain ⟨b, hb, hxb, hid, hlong⟩ := mem_processed_args hx
    rw [hid]
    exact (List.mem_filter.mp hb).2
  have hc : (processArgs metadata n args).map
      (fun a => if (lookupIds metadata.requires_args n).contains a.id
        then { a with required := true } else a)
      = processArgs metadata n args := by
    apply map_eq_self_of
    intro x hx
    obtain ⟨b, hb, hxb, hid, hlong⟩ := mem_processed_args hx
    cases hreq : (lookupIds metadata.requires_args n).contains b.id
    · rw [show (lookupIds metadata.requires_args n).contains x.id = false from by
        rw [hid, hreq]]
      rw [if_neg Bool.false_ne_true]
    · rw [show (lookupIds metadata.requires_args n).contains x.id = true from by
        rw [hid, hreq]]
      rw [if_pos rfl]
      apply required_update_self
      rw [hxb, if_pos hreq]
  have hsorted : List.Sorted argIdLe (processArgs metadata n args) := by
    simp only [processArgs, sortArgsById]
    exact List.sorted_insertionSort argIdLe _
  show sortArgsById
    ((((processArgs metadata n args).filter
        (fun a => a.long != some MCP_FLAG_LONG)).filter
      (fun a => !(lookupIds metadata.skip_args n).contains a.id)).map
      (fun a => if (lookupIds metadata.requires_args n).contains a.id
        then { a with required := true } else a))
    = processArgs metadata n args
  rw [ha, hb2, hc]
  exact hsorted.insertionSort_eq

theorem subcommands_to_schema_idempotent (metadata : ClapMcpSchemaMetadata)
    (sk : List String) (subs : List ClapCommand)
    (ih : ∀ s ∈ subs, command_to_schema_with_metadata metadata sk
        (command_to_schema_with_metadata metadata sk s)
      = command_to_schema_with_metadata metadata sk s) :
    subcommands_to_schema metadata sk (subcommands_to_schema metadata sk subs)
      = subcommands_to_schema metadata sk subs := by
  induction subs with
  | nil => rfl
  | cons c cs ihl =>
    have ih1 := ih c (List.mem_cons_self _ _)
    have ihrest := ihl (fun s hs => ih s (List.mem_cons_of_mem _ hs))
    rw [show subcommands_to_schema metadata sk (c :: cs)
        = (if sk.contains c.name then []
           else [command_to_schema_with_metadata metadata sk c])
          ++ subcommands_to_schema metadata sk cs from rfl]
    rw [subcommands_to_schema_append, ihrest]
    cases hskip : sk.contains c.name
    · rw [if_neg Bool.false_ne_true]
      rw [show subcommands_to_schema metadata sk
            [command_to_schema_with_metadata metadata sk c]
          = (if sk.contains (command_to_schema_with_metadata metadata sk c).name
              then []
             else [command_to_schema_with_metadata metadata sk
                (command_to_schema_with_metadata metadata sk c)]) ++ [] from rfl]
      rw [command_to_schema_name, ih1, hskip, if_neg Bool.false_ne_true,
        List.append_nil]
    · rw [if_pos rfl]
      rfl

/-- The filter at command level is idempotent for every skip set. -/
theorem command_filter_idempotent (metadata : ClapMcpSchemaMetadata)
    (sk : List String) (cmd : ClapCommand) :
    command_to_schema_with_metadata metadata sk
        (command_to_schema_with_metadata metadata sk cmd)
      = command_to_schema_with_metadata metadata sk cmd := by
  refine @ClapCommand.strong_induction
    (fun c => command_to_schema_with_metadata metadata sk
        (command_to_schema_with_metadata metadata sk c)
      = command_to_schema_with_metadata metadata sk c)
    ?_ cmd
  intro n a la v args subs ih
  have hunfold : ∀ (args2 : List ClapArg) (subs2 : List ClapCommand),
      command_to_schema_with_metadata metadata sk (.mk n a la v args2 subs2)
        = .mk n a la v (processArgs metadata n args2)
          (subcommands_to_schema metadata sk subs2) := by
    intro args2 subs2
    simp only [command_to_schema_with_metadata]
  rw [hunfold args subs, hunfold, processed_args_idempotent,
    subcommands_to_schema_idempotent metadata sk subs ih]

/-- Claim C9: the schema metadata filter is idempotent:
`filter(filter(s, m), m) = filter(s, m)`. -/
theorem schema_filter_idempotent (cmd : ClapCommand)
    (metadata : ClapMcpSchemaMetadata) :
    schema_from_command_with_metadata
        (schema_from_command_with_metadata cmd metadata).root metadata
      = schema_from_command_with_metadata cmd metadata :=
  congrArg ClapSchema.mk
    (command_filter_idempotent metadata metadata.skip_commands cmd)

end ClapMcp
